import Mathlib

/-!
Verification of the OpenDerisk chat-content rendering pipeline.

The developments below embed, over lists of characters, the front-end logic of
`ChatContent` (embedded `dbgpt-view` tag extraction, markdown value
normalisation, plugin status lookup, custom-view rendering, robot-context
parsing) and of `VisTabs` (the tabbed agent-output view with its
auto-follow / user-pin state machine).

JavaScript built-ins that are not part of the repository (`JSON.parse` and the
numeric coercion `+string`) are taken as parameters of the embedded functions,
so every theorem below is quantified over the behaviour of those built-ins.
String scanning loops (`String.prototype.replace` with a global regex) are
embedded as fuel-indexed structural recursions; one unit of fuel is spent per
scan step and every step consumes at least one input character, so an initial
fuel equal to the input length always suffices (the fuel-exhaustion branches
are unreachable under that instantiation, which every theorem maintains).
-/

/-- Record shape of a parsed embedded view (TypeScript type `DBGPTView`):
`name`, `status`, optional `result`, optional `err_msg`. -/
structure DBGPTView where
  name : String
  status : String
  result : Option String
  err_msg : Option String
deriving DecidableEq, Repr

/-- Splits a character list at the first occurrence of `c`: returns the part
before `c` (which therefore does not contain `c`) and the part after it.
This is the semantics of a greedy `[^c]*c` regex factor. -/
def splitAtChar (c : Char) : List Char → Option (List Char × List Char)
  | [] => none
  | x :: xs =>
    if x = c then some ([], xs)
    else
      match splitAtChar c xs with
      | some (a, b) => some (x :: a, b)
      | none => none

/-- Case-insensitive literal match (JavaScript regex `i` flag over ASCII
pattern letters): on success returns the consumed original characters and
the remainder. -/
def ciLitSplit : List Char → List Char → Option (List Char × List Char)
  | [], s => some ([], s)
  | _ :: _, [] => none
  | q :: qs, c :: cs =>
    if c.toLower = q.toLower then
      match ciLitSplit qs cs with
      | some (pre, rest) => some (c :: pre, rest)
      | none => none
    else none

/-- Characters of the literal head of the embedded-view open tag. -/
def dbgptOpenLit : List Char := "<dbgpt-view".toList

/-- Characters of the close-tag literal that must follow the payload's
first `<`. -/
def dbgptCloseLit : List Char := "/dbgpt-view>".toList

/-- Match of the regex `<dbgpt-view[^>]*>[^<]*<\/dbgpt-view>` (flags `gi`) at
the head of the input.  The greedy factors `[^>]*>` and `[^<]*<` are
deterministic (they cannot cross the excluded character), so the regex match
at a position succeeds exactly when this function does.  On success it
returns the matched fragment (original characters) and the remainder. -/
def matchDbgptAt (s : List Char) : Option (List Char × List Char) :=
  (ciLitSplit dbgptOpenLit s).bind fun os1 =>
    (splitAtChar '>' os1.2).bind fun as2 =>
      (splitAtChar '<' as2.2).bind fun ps3 =>
        (ciLitSplit dbgptCloseLit ps3.2).map fun cs4 =>
          (os1.1 ++ as2.1 ++ '>' :: ps3.1 ++ '<' :: cs4.1, cs4.2)

/-- Embeds `matchVal.replaceAll('\n', '\\n')`: every newline character is
replaced by the two characters backslash, `n`. -/
def escapeNewlines : List Char → List Char
  | [] => []
  | c :: rest =>
    if c = '\n' then '\\' :: 'n' :: escapeNewlines rest
    else c :: escapeNewlines rest

/-- Scan step of `.replace(/<[^>]*>|<\/[^>]*>/gm, '')` (the second alternative
is subsumed by the first): at each `<`, the span up to the first following
`>` is removed; a `<` with no closing `>` is kept.  Fueled; fuel equal to the
input length always suffices. -/
def stripTagsGo : Nat → List Char → List Char
  | _, [] => []
  | 0, s => s
  | fuel + 1, c :: rest =>
    if c = '<' then
      match splitAtChar '>' rest with
      | some (_, after) => stripTagsGo fuel after
      | none => c :: stripTagsGo fuel rest
    else c :: stripTagsGo fuel rest

/-- Embeds `.replace(/<[^>]*>|<\/[^>]*>/gm, '')`. -/
def stripTags (s : List Char) : List Char := stripTagsGo s.length s

/-- The string handed to `JSON.parse` for a matched fragment:
`matchVal.replaceAll('\n', '\\n').replace(/<[^>]*>|<\/[^>]*>/gm, '')`. -/
def pluginVal (frag : List Char) : List Char := stripTags (escapeNewlines frag)

/-- Embeds `val.replaceAll('\\n', '\n')`: each two-character sequence
backslash, `n` becomes a newline character. -/
def unescapeNewlines : List Char → List Char
  | '\\' :: 'n' :: rest => '\n' :: unescapeNewlines rest
  | c :: rest => c :: unescapeNewlines rest
  | [] => []

/-- JavaScript `\w` character class: ASCII letters, digits and underscore. -/
def isWordChar (c : Char) : Bool := c.isAlphanum || c = '_'

/-- Match of `<table(\w*=[^>]+)>` (resp. `<tr...`) at the head of the input:
the open literal (case-insensitively), then the capture group `\w*=[^>]+`,
then `>`.  Both greedy factors are deterministic.  Returns the capture group
and the remainder after the match. -/
def matchTagAttr (openLit : List Char) (s : List Char) : Option (List Char × List Char) :=
  match ciLitSplit openLit s with
  | none => none
  | some (_, s1) =>
    match s1.dropWhile isWordChar with
    | '=' :: s3 =>
      (match splitAtChar '>' s3 with
       | some (attrs, s4) =>
         if attrs = [] then none
         else some (s1.takeWhile isWordChar ++ '=' :: attrs, s4)
       | none => none)
    | _ => none

/-- Scan loop of `.replace(/<table(\w*=[^>]+)>/gi, '<table $1>')` (and the
`tr` variant): each match is rewritten to the lowercase open literal, a
space, the capture group and `>`.  Fueled; fuel equal to the input length
always suffices. -/
def replaceTagAttrsGo (openLit : List Char) : Nat → List Char → List Char
  | _, [] => []
  | 0, s => s
  | fuel + 1, c :: rest =>
    match matchTagAttr openLit (c :: rest) with
    | some (grp, after) => openLit ++ ' ' :: grp ++ '>' :: replaceTagAttrsGo openLit fuel after
    | none => c :: replaceTagAttrsGo openLit fuel rest

/-- Embeds one global tag-attribute replacement pass. -/
def replaceTagAttrs (openLit : List Char) (s : List Char) : List Char :=
  replaceTagAttrsGo openLit s.length s

/-- Embeds `formatMarkdownVal` on character lists:
`val.replaceAll('\\n','\n').replace(/<table(\w*=[^>]+)>/gi,'<table $1>').replace(/<tr(\w*=[^>]+)>/gi,'<tr $1>')`. -/
def formatMarkdownValL (s : List Char) : List Char :=
  replaceTagAttrs "<tr".toList (replaceTagAttrs "<table".toList (unescapeNewlines s))

/-- Embeds `formatMarkdownVal` on strings. -/
def formatMarkdownVal (s : String) : String := ⟨formatMarkdownValL s.toList⟩

/-- The placeholder written in place of the `cacheIndex`-th successfully
parsed tag: the template literal `<custom-view>` index `</custom-view>`. -/
def placeholder (idx : Nat) : List Char :=
  "<custom-view>".toList ++ (Nat.repr idx).toList ++ "</custom-view>".toList

/-- The record pushed onto `cachePluginContext`:
`{...pluginContext, result: formatMarkdownVal(pluginContext.result ?? '')}`. -/
def cachedView (p : DBGPTView) : DBGPTView :=
  { p with result := some (formatMarkdownVal (p.result.getD "")) }

/-- Scan loop of
`value.replace(/<dbgpt-view[^>]*>[^<]*<\/dbgpt-view>/gi, matchVal => ...)`
together with the `cacheIndex` counter and the `cachePluginContext` pushes of
the callback.  `parse` stands for the `JSON.parse` built-in (`none` models a
thrown exception, caught by the callback, which then returns the original
fragment).  Fueled; fuel equal to the input length always suffices. -/
def replaceViewsGo (parse : List Char → Option DBGPTView) :
    Nat → Nat → List Char → List Char × List DBGPTView
  | _, _, [] => ([], [])
  | 0, _, s => (s, [])
  | fuel + 1, idx, c :: rest =>
    match matchDbgptAt (c :: rest) with
    | some (frag, after) =>
      match parse (pluginVal frag) with
      | some p =>
        let r := replaceViewsGo parse fuel (idx + 1) after
        (placeholder idx ++ r.1, cachedView p :: r.2)
      | none =>
        let r := replaceViewsGo parse fuel idx after
        (frag ++ r.1, r.2)
    | none =>
      let r := replaceViewsGo parse fuel idx rest
      (c :: r.1, r.2)

/-- The tag extractor of `ChatContent`'s `useMemo`: processed text together
with the ordered view cache, starting from `cacheIndex = 0`. -/
def extractViews (parse : List Char → Option DBGPTView) (s : List Char) :
    List Char × List DBGPTView :=
  replaceViewsGo parse s.length 0 s

/-- Decidable test for the existence of an embedded-view tag match anywhere
in the text. -/
def hasViewTag : List Char → Bool
  | [] => false
  | c :: rest => (matchDbgptAt (c :: rest)).isSome || hasViewTag rest

/-- A segment of the scan decomposition of a text: either a character the
regex scan passed over, or a matched tag fragment together with its
`JSON.parse` outcome. -/
inductive Seg where
  | plain (c : Char)
  | tag (frag : List Char) (parsed : Option DBGPTView)
deriving DecidableEq, Repr

/-- The scan decomposition of a text: the same leftmost scan as the
extractor, recorded as segments. -/
def scanSegsGo (parse : List Char → Option DBGPTView) : Nat → List Char → List Seg
  | _, [] => []
  | 0, _ => []
  | fuel + 1, c :: rest =>
    match matchDbgptAt (c :: rest) with
    | some (frag, after) => Seg.tag frag (parse (pluginVal frag)) :: scanSegsGo parse fuel after
    | none => Seg.plain c :: scanSegsGo parse fuel rest

/-- Scan decomposition with the always-sufficient fuel. -/
def scanSegs (parse : List Char → Option DBGPTView) (s : List Char) : List Seg :=
  scanSegsGo parse s.length s

/-- Number of successfully parsed tags among the segments. -/
def countOk : List Seg → Nat
  | [] => 0
  | Seg.tag _ (some _) :: rest => countOk rest + 1
  | _ :: rest => countOk rest

/-- Reassembly of the processed text from segments: passed-over characters
and failed fragments verbatim, successful tags replaced by consecutively
numbered placeholders starting at `idx`. -/
def assembleText (idx : Nat) : List Seg → List Char
  | [] => []
  | Seg.plain c :: rest => c :: assembleText idx rest
  | Seg.tag frag none :: rest => frag ++ assembleText idx rest
  | Seg.tag _ (some _) :: rest => placeholder idx ++ assembleText (idx + 1) rest

/-- The cache entries contributed by the segments, in order. -/
def collectViews : List Seg → List DBGPTView
  | [] => []
  | Seg.tag _ (some p) :: rest => cachedView p :: collectViews rest
  | _ :: rest => collectViews rest

/-- The raw (untransformed) parse results of the successful tags, in order. -/
def okViews : List Seg → List DBGPTView
  | [] => []
  | Seg.tag _ (some p) :: rest => p :: okViews rest
  | _ :: rest => okViews rest

/-- The placeholder indices emitted for the segments when numbering starts
at `idx`, in order of appearance. -/
def emittedIndices (idx : Nat) : List Seg → List Nat
  | [] => []
  | Seg.tag _ (some _) :: rest => idx :: emittedIndices (idx + 1) rest
  | _ :: rest => emittedIndices idx rest

/-- Display style attached to a known plugin status: the background class and
the (name of the) antd icon component. -/
structure StatusEntry where
  bgClass : String
  icon : String
deriving DecidableEq, Repr

/-- Embeds the `pluginViewStatusMapper` record: property lookup on the
four-key object literal, `none` for any other key. -/
def pluginViewStatusMapper (status : String) : Option StatusEntry :=
  if status = "todo" then some ⟨"bg-gray-500", "ClockCircleOutlined"⟩
  else if status = "runing" then some ⟨"bg-blue-500", "LoadingOutlined"⟩
  else if status = "failed" then some ⟨"bg-red-500", "CloseOutlined"⟩
  else if status = "completed" then some ⟨"bg-green-500", "CheckOutlined"⟩
  else none

/-- Body of a rendered custom view: the markdown of a truthy `result`, or the
`err_msg` fallback branch. -/
inductive ViewBody where
  | result (text : String)
  | fallback (err : Option String)
deriving DecidableEq, Repr

/-- Outcome of the `custom-view` markdown component: either the raw children
text, or a rich view with name, optional background class, optional icon and
a body. -/
inductive CustomViewRender where
  | raw (children : String)
  | view (name : String) (bgClass : Option String) (icon : Option String) (body : ViewBody)
deriving DecidableEq, Repr

/-- Embeds the `custom-view` renderer of `extraMarkdownComponents`.
`toIndex` stands for the JavaScript coercion `+children.toString()` followed
by array indexing (`none` models `NaN` or any value that is not a valid
array index).  A missing cache entry (`!cachePluginContext[index]`) returns
the children unchanged; otherwise the view renders with the style of
`pluginViewStatusMapper[status] ?? {}` and the `result ? ... : err_msg`
body. -/
def renderCustomView (toIndex : String → Option Nat) (cache : List DBGPTView)
    (children : String) : CustomViewRender :=
  match toIndex children with
  | none => CustomViewRender.raw children
  | some i =>
    match cache[i]? with
    | none => CustomViewRender.raw children
    | some v =>
      let style := pluginViewStatusMapper v.status
      CustomViewRender.view v.name (style.map StatusEntry.bgClass) (style.map StatusEntry.icon)
        (match v.result with
         | some r => if r = "" then ViewBody.fallback v.err_msg else ViewBody.result r
         | none => ViewBody.fallback v.err_msg)

/-- Left and right panes of a robot answer. -/
structure RobotContext where
  left : String
  right : String
deriving DecidableEq, Repr

/-- Embeds `getRobotContext`: `JSON.parse` (the `parse` parameter stands for
this built-in; `none` models a thrown exception) inside `try`/`catch`, the
`catch` branch returning empty left and right panes. -/
def getRobotContext (parse : String → Option RobotContext) (context : String) : RobotContext :=
  match parse context with
  | some r => r
  | none => { left := "", right := "" }

/-- One agent-output record consumed by `VisTabs` (TypeScript type
`VisTabsData`). -/
structure VisTabsData where
  name : String
  status : String
  num : Nat
  task_id : String
  agent : String
  avatar : String
  markdown : String
deriving DecidableEq, Repr

/-- Embeds `getLastActiveKey`:
`data.length > 0 ? data[data.length - 1].task_id : ''`. -/
def getLastActiveKey (data : List VisTabsData) : String :=
  match data.getLast? with
  | some d => d.task_id
  | none => ""

/-- The `VisTabs` hook state: the active tab key and the `isUserActive`
flag. -/
structure TabState where
  activeKey : String
  isUserActive : Bool
deriving DecidableEq, Repr

/-- Initial hook state: `useState(getLastActiveKey(data))` and
`useState(false)`. -/
def initTabState (data : List VisTabsData) : TabState :=
  { activeKey := getLastActiveKey data, isUserActive := false }

/-- Embeds `setTabActiveByUser(key)` as evaluated against a given `data`
prop: clears `isUserActive` when the key is the currently computed last
active key, sets it otherwise, and always moves `activeKey` to the key. -/
def setTabActiveByUser (data : List VisTabsData) (key : String) : TabState :=
  if key = getLastActiveKey data then { activeKey := key, isUserActive := false }
  else { activeKey := key, isUserActive := true }

/-- Embeds the `useEffect` on `[data]`: when the user is not driving, the
active key snaps to the last element's task id; otherwise the state is
untouched. -/
def onDataArrive (data : List VisTabsData) (s : TabState) : TabState :=
  if s.isUserActive then s else { s with activeKey := getLastActiveKey data }

/-- Whole-component view of `VisTabs` for the click-equivalence question:
`data` is the current prop, while `mountData` is the `data` prop of the
first render, which the `TASK_CLICK` handler registered by the
empty-dependency `useEffect` closed over. -/
structure VisTabsComponent where
  mountData : List VisTabsData
  data : List VisTabsData
  state : TabState
deriving DecidableEq, Repr

/-- A direct click in the tab strip: `Tabs.onChange` calls the current
render's `setTabActiveByUser`, which reads the current `data`. -/
def directTabClick (c : VisTabsComponent) (key : String) : VisTabsComponent :=
  { c with state := setTabActiveByUser c.data key }

/-- An external `TASK_CLICK` event: the handler registered once on mount
calls the first render's `setTabActiveByUser`, which reads the mount-time
`data`. -/
def externalTaskClick (c : VisTabsComponent) (key : String) : VisTabsComponent :=
  { c with state := setTabActiveByUser c.mountData key }

/-- A successful character split reassembles to the original list. -/
theorem splitAtChar_eq (c : Char) :
    ∀ (s a b : List Char), splitAtChar c s = some (a, b) → a ++ c :: b = s := by
  intro s
  induction s with
  | nil => intro a b h; simp [splitAtChar] at h
  | cons x xs ih =>
    intro a b h
    by_cases hx : x = c
    · simp [splitAtChar, hx] at h
      obtain ⟨ha, hb⟩ := h
      subst ha; subst hb; simp [hx]
    · simp only [splitAtChar, if_neg hx] at h
      cases hs : splitAtChar c xs with
      | none => rw [hs] at h; simp at h
      | some p =>
        obtain ⟨a1, b1⟩ := p
        rw [hs] at h
        simp only [Option.some.injEq, Prod.mk.injEq] at h
        obtain ⟨ha, hb⟩ := h
        subst ha; subst hb
        rw [List.cons_append, ih a1 b1 hs]

/-- A successful case-insensitive literal match splits the input, and the
consumed part has the literal's length. -/
theorem ciLitSplit_eq :
    ∀ (p s pre rest : List Char), ciLitSplit p s = some (pre, rest) →
      pre ++ rest = s ∧ pre.length = p.length := by
  intro p
  induction p with
  | nil =>
    intro s pre rest h
    simp [ciLitSplit] at h
    obtain ⟨hp, hr⟩ := h
    subst hp; subst hr; simp
  | cons q qs ih =>
    intro s pre rest h
    cases s with
    | nil => simp [ciLitSplit] at h
    | cons c cs =>
      by_cases hc : c.toLower = q.toLower
      · simp only [ciLitSplit, if_pos hc] at h
        cases hs : ciLitSplit qs cs with
        | none => rw [hs] at h; simp at h
        | some p1 =>
          obtain ⟨pre1, rest1⟩ := p1
          rw [hs] at h
          simp only [Option.some.injEq, Prod.mk.injEq] at h
          obtain ⟨hp, hr⟩ := h
          subst hp; subst hr
          obtain ⟨h1, h2⟩ := ih cs pre1 rest1 hs
          constructor
          · rw [List.cons_append, h1]
          · simp [h2]
      · simp [ciLitSplit, if_neg hc] at h

/-- A successful tag match splits the input into the matched fragment and
the remainder, and the remainder is strictly shorter than the input. -/
theorem matchDbgptAt_eq :
    ∀ {s frag after : List Char}, matchDbgptAt s = some (frag, after) →
      frag ++ after = s ∧ after.length < s.length := by
  intro s frag after h
  unfold matchDbgptAt at h
  simp only [Option.bind_eq_some, Option.map_eq_some'] at h
  obtain ⟨⟨o, s1⟩, h1, ⟨attrs, s2⟩, h2, ⟨payload, s3⟩, h3, ⟨cl, s4⟩, h4, hfa⟩ := h
  dsimp only at h2 h3 h4 hfa
  simp only [Prod.mk.injEq] at hfa
  obtain ⟨hf, ha⟩ := hfa
  obtain ⟨e1, _⟩ := ciLitSplit_eq _ _ _ _ h1
  have e2 := splitAtChar_eq '>' _ _ _ h2
  have e3 := splitAtChar_eq '<' _ _ _ h3
  obtain ⟨e4, _⟩ := ciLitSplit_eq _ _ _ _ h4
  subst hf; subst ha
  have hs : (o ++ attrs ++ '>' :: payload ++ '<' :: cl) ++ s4 = s := by
    rw [← e1, ← e2, ← e3, ← e4]; simp
  refine ⟨hs, ?_⟩
  have hlen : s.length
      = (o ++ attrs ++ '>' :: payload ++ '<' :: cl).length + s4.length := by
    rw [← hs]; simp only [List.length_append, List.length_cons]
  simp only [List.length_append, List.length_cons] at hlen
  omega

/-- The extractor loop computes exactly the reassembly of the scan
decomposition: placeholders for successful tags, verbatim text elsewhere,
with the cache collecting the transformed parse results in scan order. -/
theorem replaceViewsGo_eq_scan (parse : List Char → Option DBGPTView) :
    ∀ (fuel : Nat) (s : List Char), s.length ≤ fuel → ∀ idx,
      replaceViewsGo parse fuel idx s
        = (assembleText idx (scanSegsGo parse fuel s),
           collectViews (scanSegsGo parse fuel s)) := by
  intro fuel
  induction fuel with
  | zero =>
    intro s hs idx
    have hnil : s = [] := List.eq_nil_of_length_eq_zero (Nat.le_zero.mp hs)
    subst hnil
    rfl
  | succ fuel ih =>
    intro s hs idx
    cases s with
    | nil => rfl
    | cons c rest =>
      cases hm : matchDbgptAt (c :: rest) with
      | none =>
        have hr : rest.length ≤ fuel := by
          simp only [List.length_cons] at hs; omega
        simp only [replaceViewsGo, scanSegsGo, hm, assembleText, collectViews]
        rw [ih rest hr idx]
      | some p =>
        obtain ⟨frag, after⟩ := p
        obtain ⟨_, hlt⟩ := matchDbgptAt_eq hm
        have ha : after.length ≤ fuel := by
          simp only [List.length_cons] at hs hlt; omega
        cases hp : parse (pluginVal frag) with
        | some q =>
          simp only [replaceViewsGo, scanSegsGo, hm, hp, assembleText, collectViews]
          rw [ih after ha (idx + 1)]
        | none =>
          simp only [replaceViewsGo, scanSegsGo, hm, hp, assembleText, collectViews]
          rw [ih after ha idx]

/-- The extractor equals the reassembly of the scan decomposition. -/
theorem extractViews_eq_scan (parse : List Char → Option DBGPTView) (s : List Char) :
    extractViews parse s
      = (assembleText 0 (scanSegs parse s), collectViews (scanSegs parse s)) :=
  replaceViewsGo_eq_scan parse s.length s (Nat.le_refl _) 0

/-- Successful-tag counting distributes over segment concatenation. -/
theorem countOk_append : ∀ l1 l2 : List Seg, countOk (l1 ++ l2) = countOk l1 + countOk l2 := by
  intro l1 l2
  induction l1 with
  | nil => simp [countOk]
  | cons seg t ih =>
    cases seg with
    | plain c => simpa [countOk] using ih
    | tag f o =>
      cases o with
      | none => simpa [countOk] using ih
      | some p => simp [countOk, ih]; omega

/-- Reassembly distributes over segment concatenation; the second block
continues numbering after the successful tags of the first. -/
theorem assembleText_append :
    ∀ (l1 l2 : List Seg) (idx : Nat),
      assembleText idx (l1 ++ l2)
        = assembleText idx l1 ++ assembleText (idx + countOk l1) l2 := by
  intro l1
  induction l1 with
  | nil => intro l2 idx; simp [assembleText, countOk]
  | cons seg t ih =>
    intro l2 idx
    cases seg with
    | plain c => simp [assembleText, countOk, ih]
    | tag f o =>
      cases o with
      | none => simp [assembleText, countOk, ih]
      | some p =>
        have harith : idx + (countOk t + 1) = idx + 1 + countOk t := by omega
        simp [assembleText, countOk, ih, harith]

/-- Cache collection distributes over segment concatenation. -/
theorem collectViews_append :
    ∀ l1 l2 : List Seg, collectViews (l1 ++ l2) = collectViews l1 ++ collectViews l2 := by
  intro l1 l2
  induction l1 with
  | nil => simp [collectViews]
  | cons seg t ih =>
    cases seg with
    | plain c => simpa [collectViews] using ih
    | tag f o =>
      cases o with
      | none => simpa [collectViews] using ih
      | some p => simp [collectViews, ih]

/-- The emitted placeholder indices are exactly the consecutive naturals
starting at `idx`, one per successful tag. -/
theorem emittedIndices_eq_range' :
    ∀ (l : List Seg) (idx : Nat), emittedIndices idx l = List.range' idx (countOk l) := by
  intro l
  induction l with
  | nil => intro idx; simp [emittedIndices, countOk]
  | cons seg t ih =>
    intro idx
    cases seg with
    | plain c => simp [emittedIndices, countOk, ih]
    | tag f o =>
      cases o with
      | none => simp [emittedIndices, countOk, ih]
      | some p => simp [emittedIndices, countOk, ih, List.range'_succ]

/-- Every tag segment of the scan decomposition records the `JSON.parse`
outcome of its own fragment's payload. -/
theorem scanSegsGo_tag_parsed (parse : List Char → Option DBGPTView) :
    ∀ (fuel : Nat) (s frag : List Char) (o : Option DBGPTView),
      Seg.tag frag o ∈ scanSegsGo parse fuel s → o = parse (pluginVal frag) := by
  intro fuel
  induction fuel with
  | zero =>
    intro s frag o h
    cases s <;> simp [scanSegsGo] at h
  | succ fuel ih =>
    intro s frag o h
    cases s with
    | nil => simp [scanSegsGo] at h
    | cons c rest =>
      cases hm : matchDbgptAt (c :: rest) with
      | none =>
        rw [scanSegsGo, hm] at h
        simp only [List.mem_cons] at h
        rcases h with h | h
        · exact absurd h (by simp)
        · exact ih rest frag o h
      | some p =>
        obtain ⟨f1, after⟩ := p
        rw [scanSegsGo, hm] at h
        simp only [List.mem_cons] at h
        rcases h with h | h
        · rw [Seg.tag.injEq] at h
          obtain ⟨hf, ho⟩ := h
          subst hf; exact ho
        · exact ih after frag o h

/-- The collected cache is the pointwise `cachedView` image of the raw
parse results. -/
theorem collectViews_eq_map : ∀ l : List Seg, collectViews l = (okViews l).map cachedView := by
  intro l
  induction l with
  | nil => simp [collectViews, okViews]
  | cons seg t ih =>
    cases seg with
    | plain c => simpa [collectViews, okViews] using ih
    | tag f o =>
      cases o with
      | none => simpa [collectViews, okViews] using ih
      | some p => simp [collectViews, okViews, ih]

/-- The cache has one entry per successful tag. -/
theorem length_collectViews : ∀ l : List Seg, (collectViews l).length = countOk l := by
  intro l
  induction l with
  | nil => simp [collectViews, countOk]
  | cons seg t ih =>
    cases seg with
    | plain c => simpa [collectViews, countOk] using ih
    | tag f o =>
      cases o with
      | none => simpa [collectViews, countOk] using ih
      | some p => simp [collectViews, countOk, ih]

/-- When the text has no embedded-view tag match anywhere, the scan
decomposition is the text itself, character by character. -/
theorem scanSegsGo_no_tags (parse : List Char → Option DBGPTView) :
    ∀ (fuel : Nat) (s : List Char), s.length ≤ fuel → hasViewTag s = false →
      scanSegsGo parse fuel s = s.map Seg.plain := by
  intro fuel
  induction fuel with
  | zero =>
    intro s hs _
    have hnil : s = [] := List.eq_nil_of_length_eq_zero (Nat.le_zero.mp hs)
    subst hnil; rfl
  | succ fuel ih =>
    intro s hs h
    cases s with
    | nil => rfl
    | cons c rest =>
      rw [hasViewTag, Bool.or_eq_false_iff] at h
      obtain ⟨hm0, hrest⟩ := h
      have hm : matchDbgptAt (c :: rest) = none := by
        cases hmm : matchDbgptAt (c :: rest) with
        | none => rfl
        | some p => rw [hmm] at hm0; simp at hm0
      simp only [scanSegsGo, hm]
      have hr : rest.length ≤ fuel := by
        simp only [List.length_cons] at hs; omega
      rw [ih rest hr hrest]
      rfl

/-- Reassembling an all-plain decomposition gives back the text. -/
theorem assembleText_map_plain :
    ∀ (s : List Char) (idx : Nat), assembleText idx (s.map Seg.plain) = s := by
  intro s
  induction s with
  | nil => intro idx; rfl
  | cons c rest ih => intro idx; simp [assembleText, ih]

/-- An all-plain decomposition contributes no cache entry. -/
theorem collectViews_map_plain : ∀ s : List Char, collectViews (s.map Seg.plain) = [] := by
  intro s
  induction s with
  | nil => rfl
  | cons c rest ih => simpa [collectViews] using ih

/-- C1: for every input text, the extractor rewrites the text along its scan
decomposition, replacing the successfully parsed tags, in left-to-right
order, by placeholders of the exact form `<custom-view>` index
`</custom-view>` carrying the indices `0 .. N-1`, while the cache receives
exactly `N` entries in the same order, so placeholders and cache entries
correspond one to one. -/
theorem extractViews_indices_in_order (parse : List Char → Option DBGPTView) (s : List Char) :
    extractViews parse s
        = (assembleText 0 (scanSegs parse s), collectViews (scanSegs parse s))
    ∧ emittedIndices 0 (scanSegs parse s) = List.range (countOk (scanSegs parse s))
    ∧ (collectViews (scanSegs parse s)).length = countOk (scanSegs parse s)
    ∧ (extractViews parse s).2.length = countOk (scanSegs parse s)
    ∧ (∀ i : Nat,
        placeholder i = ("<custom-view>" ++ Nat.repr i ++ "</custom-view>").toList) := by
  refine ⟨extractViews_eq_scan parse s, ?_, length_collectViews _, ?_, ?_⟩
  · rw [emittedIndices_eq_range', List.range_eq_range']
  · rw [extractViews_eq_scan]
    exact length_collectViews _
  · intro i
    simp [placeholder]

/-- C7: a text with no embedded-view tag passes through the extractor
unchanged, with an empty view cache. -/
theorem extractViews_no_tags_identity (parse : List Char → Option DBGPTView)
    (s : List Char) (h : hasViewTag s = false) :
    extractViews parse s = (s, []) := by
  rw [extractViews_eq_scan,
    show scanSegs parse s = s.map Seg.plain from
      scanSegsGo_no_tags parse s.length s (Nat.le_refl _) h,
    assembleText_map_plain, collectViews_map_plain]

/-- Witness for C7 at a concrete tagless text. -/
theorem extractViews_no_tags_identity_witness :
    extractViews (fun _ => none) "hello <b>1</b>".toList = ("hello <b>1</b>".toList, []) :=
  extractViews_no_tags_identity (fun _ => none) _ (by decide)

/-- C2: a tag whose payload fails to parse is kept byte for byte at its
original position, contributes no cache entry and consumes no placeholder
index, while the surrounding text and the other tags are processed
normally; the extractor is total, so no exception reaches the caller. -/
theorem extractViews_malformed_passthrough (parse : List Char → Option DBGPTView)
    (s : List Char) (segs1 segs2 : List Seg) (f : List Char)
    (h : scanSegs parse s = segs1 ++ Seg.tag f none :: segs2) :
    parse (pluginVal f) = none
    ∧ (extractViews parse s).1
        = assembleText 0 segs1 ++ (f ++ assembleText (countOk segs1) segs2)
    ∧ (extractViews parse s).2 = collectViews segs1 ++ collectViews segs2 := by
  have hmem : Seg.tag f none ∈ scanSegs parse s := by rw [h]; simp
  have hparse := scanSegsGo_tag_parsed parse s.length s f none hmem
  refine ⟨hparse.symm, ?_, ?_⟩
  · rw [extractViews_eq_scan, h]
    simp only
    rw [assembleText_append]
    simp [assembleText]
  · rw [extractViews_eq_scan, h]
    simp only
    rw [collectViews_append]
    simp [collectViews]

/-- A sample record standing for a successfully parsed payload. -/
def viewA : DBGPTView :=
  { name := "a", status := "completed", result := some "r", err_msg := none }

/-- A sample stand-in for `JSON.parse` accepting only the payload `A`. -/
def parseOnlyA : List Char → Option DBGPTView :=
  fun l => if l = "A".toList then some viewA else none

/-- A tag fragment whose payload `parseOnlyA` accepts. -/
def fragA : List Char := "<dbgpt-view>A</dbgpt-view>".toList

/-- A tag fragment whose payload `parseOnlyA` rejects. -/
def fragB : List Char := "<dbgpt-view>B</dbgpt-view>".toList

/-- A text with a malformed tag between two well-formed ones. -/
def textABA : List Char := fragA ++ fragB ++ fragA

/-- Witness for C2: in `textABA` the middle tag fails to parse, is kept
verbatim, and the two good tags still get placeholders and cache entries. -/
theorem extractViews_malformed_passthrough_witness :
    parseOnlyA (pluginVal fragB) = none
    ∧ (extractViews parseOnlyA textABA).1
        = assembleText 0 [Seg.tag fragA (some viewA)]
            ++ (fragB ++ assembleText (countOk [Seg.tag fragA (some viewA)])
                  [Seg.tag fragA (some viewA)])
    ∧ (extractViews parseOnlyA textABA).2
        = collectViews [Seg.tag fragA (some viewA)]
            ++ collectViews [Seg.tag fragA (some viewA)] :=
  extractViews_malformed_passthrough parseOnlyA textABA
    [Seg.tag fragA (some viewA)] [Seg.tag fragA (some viewA)] fragB (by decide)

/-- C10: every cache entry is the parsed record with only its `result`
field rewritten: a missing result becomes the empty string and the stored
text is `formatMarkdownVal` of it, which turns each literal backslash-`n`
pair into a newline and inserts the separating space into `table` and `tr`
attributes; name, status and error message are stored unchanged. -/
theorem extractViews_cache_normalized (parse : List Char → Option DBGPTView) (s : List Char) :
    (extractViews parse s).2 = (okViews (scanSegs parse s)).map cachedView
    ∧ (∀ p : DBGPTView,
        (cachedView p).name = p.name ∧ (cachedView p).status = p.status
          ∧ (cachedView p).err_msg = p.err_msg
          ∧ (cachedView p).result = some (formatMarkdownVal (p.result.getD "")))
    ∧ formatMarkdownVal "a\\nb" = "a\nb"
    ∧ formatMarkdownVal "<tableborder=1>" = "<table border=1>"
    ∧ formatMarkdownVal "<trcolspan=2>" = "<tr colspan=2>" := by
  refine ⟨?_, ?_, by decide, by decide, by decide⟩
  · rw [extractViews_eq_scan]
    exact collectViews_eq_map _
  · intro p
    exact ⟨rfl, rfl, rfl, rfl⟩

/-- C3: while the user is not driving, a data arrival snaps the active tab
to the last task id (in particular an appended record's task id); a user
selection of a non-last tab pins it against later arrivals; selecting the
current last tab clears the flag and resumes auto-follow. -/
theorem visTabs_follow_and_pin
    (data data2 : List VisTabsData) (r : VisTabsData) (s : TabState) (key : String)
    (hfollow : s.isUserActive = false)
    (hpin : key ≠ getLastActiveKey data) :
    (onDataArrive data s).activeKey = getLastActiveKey data
    ∧ (onDataArrive (data ++ [r]) s).activeKey = r.task_id
    ∧ (setTabActiveByUser data key).isUserActive = true
    ∧ (onDataArrive data2 (setTabActiveByUser data key)).activeKey = key
    ∧ (setTabActiveByUser data (getLastActiveKey data)).isUserActive = false
    ∧ (onDataArrive data2 (setTabActiveByUser data (getLastActiveKey data))).activeKey
        = getLastActiveKey data2 := by
  refine ⟨?_, ?_, ?_, ?_, ?_, ?_⟩
  · simp [onDataArrive, hfollow]
  · simp [onDataArrive, hfollow, getLastActiveKey, List.getLast?_concat]
  · simp [setTabActiveByUser, hpin]
  · simp [onDataArrive, setTabActiveByUser, hpin]
  · simp [setTabActiveByUser]
  · simp [onDataArrive, setTabActiveByUser]

/-- A concrete agent-output record with the given task id. -/
def mkTab (id : String) : VisTabsData :=
  { name := id, status := "completed", num := 0, task_id := id,
    agent := "agent", avatar := "a.png", markdown := "" }

/-- Witness for C3 with records `T1, T3`, an appended `T4`, a pin on `T1`
and a later arrival ending in `T5`. -/
theorem visTabs_follow_and_pin_witness :
    (onDataArrive [mkTab "T1", mkTab "T3"] ⟨"T3", false⟩).activeKey
        = getLastActiveKey [mkTab "T1", mkTab "T3"]
    ∧ (onDataArrive ([mkTab "T1", mkTab "T3"] ++ [mkTab "T4"]) ⟨"T3", false⟩).activeKey
        = (mkTab "T4").task_id
    ∧ (setTabActiveByUser [mkTab "T1", mkTab "T3"] "T1").isUserActive = true
    ∧ (onDataArrive [mkTab "T1", mkTab "T3", mkTab "T5"]
        (setTabActiveByUser [mkTab "T1", mkTab "T3"] "T1")).activeKey = "T1"
    ∧ (setTabActiveByUser [mkTab "T1", mkTab "T3"]
        (getLastActiveKey [mkTab "T1", mkTab "T3"])).isUserActive = false
    ∧ (onDataArrive [mkTab "T1", mkTab "T3", mkTab "T5"]
        (setTabActiveByUser [mkTab "T1", mkTab "T3"]
          (getLastActiveKey [mkTab "T1", mkTab "T3"]))).activeKey
        = getLastActiveKey [mkTab "T1", mkTab "T3", mkTab "T5"] :=
  visTabs_follow_and_pin [mkTab "T1", mkTab "T3"] [mkTab "T1", mkTab "T3", mkTab "T5"]
    (mkTab "T4") ⟨"T3", false⟩ "T1" rfl (by decide)

/-- C9: the computed last-active key of an empty output sequence is the
empty string, for a non-empty sequence it is the last record's task id, and
the initial hook state starts on it with the user-driving flag clear. -/
theorem getLastActiveKey_empty_and_last (data : List VisTabsData) (d : VisTabsData)
    (h : data.getLast? = some d) :
    getLastActiveKey ([] : List VisTabsData) = ""
    ∧ getLastActiveKey data = d.task_id
    ∧ initTabState data = { activeKey := getLastActiveKey data, isUserActive := false } := by
  refine ⟨rfl, ?_, rfl⟩
  rw [getLastActiveKey, h]

/-- Witness for C9 on the singleton sequence with task id `T9`. -/
theorem getLastActiveKey_empty_and_last_witness :
    getLastActiveKey ([] : List VisTabsData) = ""
    ∧ getLastActiveKey [mkTab "T9"] = (mkTab "T9").task_id
    ∧ initTabState [mkTab "T9"]
        = { activeKey := getLastActiveKey [mkTab "T9"], isUserActive := false } :=
  getLastActiveKey_empty_and_last [mkTab "T9"] (mkTab "T9") (by decide)

/-- The component mounted with the single record `T1`, after its data prop
grew to `T1, T2` and the data effect snapped the active tab to `T2`. -/
def visTabsGrown : VisTabsComponent :=
  { mountData := [mkTab "T1"], data := [mkTab "T1", mkTab "T2"],
    state := onDataArrive [mkTab "T1", mkTab "T2"] (initTabState [mkTab "T1"]) }

/-- C4 fails on the code: the `TASK_CLICK` handler is registered by a
`useEffect` with an empty dependency list, so it closes over the mount-time
`data`.  In the reachable state `visTabsGrown`, clicking `T2` (the current
last tab) directly resumes auto-follow, while the same click arriving as an
external `TASK_CLICK` event compares `T2` against the mount-time last tab
`T1` and pins instead: the two transitions produce different states. -/
theorem externalTaskClick_differs_from_directTabClick :
    visTabsGrown.state = { activeKey := "T2", isUserActive := false }
    ∧ (directTabClick visTabsGrown "T2").state
        = { activeKey := "T2", isUserActive := false }
    ∧ (externalTaskClick visTabsGrown "T2").state
        = { activeKey := "T2", isUserActive := true }
    ∧ externalTaskClick visTabsGrown "T2" ≠ directTabClick visTabsGrown "T2" := by
  decide

/-- C5: the status lookup returns the fixed style for each of the four
known statuses and nothing for any other status string, and a cached view
with an unknown status still renders, with no background class and no
icon. -/
theorem statusMapper_unknown_and_known (s : String)
    (h1 : s ≠ "todo") (h2 : s ≠ "runing") (h3 : s ≠ "failed") (h4 : s ≠ "completed") :
    pluginViewStatusMapper s = none
    ∧ pluginViewStatusMapper "todo"
        = some { bgClass := "bg-gray-500", icon := "ClockCircleOutlined" }
    ∧ pluginViewStatusMapper "runing"
        = some { bgClass := "bg-blue-500", icon := "LoadingOutlined" }
    ∧ pluginViewStatusMapper "failed"
        = some { bgClass := "bg-red-500", icon := "CloseOutlined" }
    ∧ pluginViewStatusMapper "completed"
        = some { bgClass := "bg-green-500", icon := "CheckOutlined" }
    ∧ (∀ (toIndex : String → Option Nat) (cache : List DBGPTView) (children : String)
        (i : Nat) (v : DBGPTView),
        toIndex children = some i → cache[i]? = some v →
        pluginViewStatusMapper v.status = none →
        ∃ body, renderCustomView toIndex cache children
          = CustomViewRender.view v.name none none body) := by
  refine ⟨by simp [pluginViewStatusMapper, h1, h2, h3, h4], rfl, rfl, rfl, rfl, ?_⟩
  intro toIndex cache children i v hti hc hm
  cases hr : v.result with
  | some rr =>
    by_cases hrr : rr = ""
    · exact ⟨ViewBody.fallback v.err_msg, by simp [renderCustomView, hti, hc, hm, hr, hrr]⟩
    · exact ⟨ViewBody.result rr, by simp [renderCustomView, hti, hc, hm, hr, hrr]⟩
  | none => exact ⟨ViewBody.fallback v.err_msg, by simp [renderCustomView, hti, hc, hm, hr]⟩

/-- A cached view carrying a status outside the enumerated set. -/
def viewUnknownStatus : DBGPTView :=
  { name := "x", status := "unknown", result := some "r", err_msg := none }

/-- Witness for C5 at the status string `unknown`. -/
theorem statusMapper_unknown_and_known_witness :
    pluginViewStatusMapper "unknown" = none
    ∧ ∃ body, renderCustomView (fun _ => some 0) [viewUnknownStatus] "0"
        = CustomViewRender.view "x" none none body := by
  have h := statusMapper_unknown_and_known "unknown"
    (by decide) (by decide) (by decide) (by decide)
  exact ⟨h.1, h.2.2.2.2.2 (fun _ => some 0) [viewUnknownStatus] "0" 0 viewUnknownStatus
    rfl rfl h.1⟩

/-- C6: when the coerced placeholder index has no cache entry (not a valid
index, or out of range), the renderer returns the raw children text, and it
is total, so no error is raised. -/
theorem customView_missing_entry_raw (toIndex : String → Option Nat)
    (cache : List DBGPTView) (children : String)
    (h : (toIndex children).bind (fun i => cache[i]?) = none) :
    renderCustomView toIndex cache children = CustomViewRender.raw children := by
  cases hti : toIndex children with
  | none => simp [renderCustomView, hti]
  | some i =>
    rw [hti] at h
    have h2 : cache[i]? = none := by simpa using h
    simp [renderCustomView, hti, h2]

/-- Witness for C6: index 5 against an empty cache renders raw. -/
theorem customView_missing_entry_raw_witness :
    renderCustomView (fun _ => some 5) [] "5" = CustomViewRender.raw "5" :=
  customView_missing_entry_raw (fun _ => some 5) [] "5" rfl

/-- C8: when the top-level context JSON parse fails, `getRobotContext`
recovers locally and returns empty left and right panes; it is total, so
the failure never surfaces. -/
theorem getRobotContext_parse_failure_empty (parse : String → Option RobotContext)
    (context : String) (h : parse context = none) :
    getRobotContext parse context = { left := "", right := "" } := by
  simp [getRobotContext, h]

/-- Witness for C8 on a concretely failing parse. -/
theorem getRobotContext_parse_failure_empty_witness :
    getRobotContext (fun _ => none) "not json" = { left := "", right := "" } :=
  getRobotContext_parse_failure_empty (fun _ => none) "not json" rfl
